import Mathlib

/-!
Verification of the ChromaTerm core (`chromaterm/__init__.py`): a shallow
embedding of the rule compiler (`get_highlight_repl_func`, `parse_rule`),
the highlighter (`highlight`), the configuration parser (`parse_config`),
the stream driver (`process_buffer`), and the entry point (`main`).

Python dynamic values are embedded as the inductive `PyValue`; code that can
raise a Python exception is embedded with `Except PyErr`; a Python function
that returns an error *string* instead of raising keeps that as a
`Sum String _` value, mirroring the source.  The external regular-expression
engine (`regex` library) and the color table (`chromaterm.colors`) are not
part of the analysed source; they enter as explicit parameters
(`matchesOf` / `compileGroups` / `getCode`) with concrete sample instances
used to evaluate the embedding on concrete inputs.
-/

set_option autoImplicit false

namespace ChromaTerm

/-- Embedded Python values, as far as the analysed code inspects them.
Python `dict`s are embedded as association lists in insertion order
(Python dictionaries preserve insertion order and have unique keys). -/
inductive PyValue where
  | none
  | bool (b : Bool)
  | int (n : Int)
  | str (s : String)
  | list (xs : List PyValue)
  | dict (entries : List (PyValue × PyValue))

/-- Embedded Python exceptions that the analysed code can raise. -/
inductive PyErr where
  | attributeError
  | typeError
  | regexError
deriving DecidableEq

/-- Python truthiness (`bool(v)`) for the embedded values. -/
def pyTruthy : PyValue → Bool
  | .none => false
  | .bool b => b
  | .int n => n != 0
  | .str s => s != ""
  | .list xs => !xs.isEmpty
  | .dict es => !es.isEmpty

/-- `isinstance(v, str)`. -/
def isStr : PyValue → Bool
  | .str _ => true
  | _ => false

/-- `isinstance(v, int)`.  In Python `bool` is a subclass of `int`,
so booleans satisfy this check. -/
def isInt : PyValue → Bool
  | .int _ => true
  | .bool _ => true
  | _ => false

/-- `isinstance(v, dict)`. -/
def isDict : PyValue → Bool
  | .dict _ => true
  | _ => false

/-- Look up a string key in an embedded dict's entry list. -/
def lookupStr : List (PyValue × PyValue) → String → Option PyValue
  | [], _ => Option.none
  | (k, v) :: rest, name =>
      match k with
      | .str s => if s = name then some v else lookupStr rest name
      | _ => lookupStr rest name

/-- `v.get(key)` with default `None`: only dictionaries have `.get`;
on any other value the attribute access raises `AttributeError`. -/
def pyGet (v : PyValue) (key : String) : Except PyErr PyValue :=
  match v with
  | .dict es => .ok ((lookupStr es key).getD .none)
  | _ => .error .attributeError

/-- `v.get(key, dflt)`; only dictionaries have `.get`. -/
def pyGetD (v : PyValue) (key : String) (dflt : PyValue) : Except PyErr PyValue :=
  match v with
  | .dict es => .ok ((lookupStr es key).getD dflt)
  | _ => .error .attributeError

/-- `int(v)` view used for the `x <= group_count` comparison: defined for
Python ints and bools (`True == 1`, `False == 0`); comparing any other
value with an int raises `TypeError`. -/
def pyToInt : PyValue → Except PyErr Int
  | .int n => .ok n
  | .bool b => .ok (if b then 1 else 0)
  | _ => .error .typeError

/-- `'{}'.format(v)` — the textual rendering used inside error messages.
Container rendering is abbreviated; the analysed messages only ever format
scalar keys and whole rules, and no claim depends on the rendering of a
container. -/
def pyStr : PyValue → String
  | .none => "None"
  | .bool b => if b then "True" else "False"
  | .int n => toString n
  | .str s => s
  | .list _ => "[...]"
  | .dict _ => "\x7b...\x7d"

/-- The substitution function built by `get_highlight_repl_func` and stored
under the `'repl_func'` key.  A *simple action* closure appends the color
code before and the reset string after the whole match; a *complex action*
closure captures the `actions` dictionary (group index to color code). -/
inductive ReplFunc where
  | simple (colorCode resetString : String)
  | complex (actions : List (Int × String))
deriving DecidableEq

/-- The dictionary `{'regex': regex, 'repl_func': func}` returned by
`get_highlight_repl_func` on success. -/
structure CompiledRule where
  regex : PyValue
  replFunc : ReplFunc

/-- The configuration dictionary built by `parse_config`:
`{'rules': [...], 'reset_string': '\033[0m'}`. -/
structure Config where
  rules : List CompiledRule
  resetString : String

/-- The configuration as initialised at the top of `parse_config`. -/
def defaultConfig : Config := ⟨[], "\x1b[0m"⟩

/-- Applying a compiled substitution function to a match: both closures read
only `match.group(0)` (the whole matched text).  The complex-action closure
in the source returns `match.group(0)` in *both* branches of its `if`, so it
never uses the captured `actions`; the embedding keeps that branch structure
verbatim. -/
def applyReplFunc : ReplFunc → String → String
  | .simple colorCode resetString, g0 => colorCode ++ (g0 ++ resetString)
  | .complex actions, g0 => if actions.isEmpty then g0 else g0

/-- The match decomposition produced by the external regex engine for one
`re.sub(pattern, repl, line)` call: the non-overlapping matches in order,
each as (gap before the match, matched text), followed by the text after the
last match.  A faithful engine satisfies `recompose` = the input line. -/
structure SubDecomp where
  parts : List (String × String)
  tail : String
deriving DecidableEq

/-- Interleave the gaps, the replaced matches and the tail. -/
def applyParts (f : String → String) : List (String × String) → String → String
  | [], tail => tail
  | (g, m) :: rest, tail => g ++ (f m ++ applyParts f rest tail)

/-- Result of substituting every match of a decomposition. -/
def SubDecomp.apply (d : SubDecomp) (f : String → String) : String :=
  applyParts f d.parts d.tail

/-- The text a decomposition was cut from. -/
def SubDecomp.recompose (d : SubDecomp) : String :=
  applyParts id d.parts d.tail

/-- `re.sub(pattern, repl_func, line)`.  The pattern the source passes is the
raw `rule['regex']` value; `re.sub` raises `TypeError` unless it is a
string (or compiled pattern, which the source never builds). `matchesOf` is
the external engine's matcher. -/
def reSub (matchesOf : String → String → SubDecomp) (pattern : PyValue)
    (repl : ReplFunc) (line : String) : Except PyErr String :=
  match pattern with
  | .str p => .ok ((matchesOf p line).apply (applyReplFunc repl))
  | _ => .error .typeError

/-- `highlight(rules, line)`: fold every rule's `re.sub` over the line. -/
def highlight (matchesOf : String → String → SubDecomp) :
    List CompiledRule → String → Except PyErr String
  | [], line => .ok line
  | r :: rest, line =>
      match reSub matchesOf r.regex r.replFunc line with
      | .error e => .error e
      | .ok line2 => highlight matchesOf rest line2

/-- `re.compile(regex).groups`: the engine's compile-time group count for a
string pattern (`compileGroups`, which may fail on a malformed pattern, in
which case the compile call raises); compiling a non-string raises
`TypeError`. -/
def reCompileGroups (compileGroups : String → Except String Nat)
    (pattern : PyValue) : Except PyErr Nat :=
  match pattern with
  | .str p =>
      match compileGroups p with
      | .ok n => .ok n
      | .error _ => .error .regexError
  | _ => .error .typeError

/-- Modelled from the spec: `chromaterm.colors.get_code` is not part of the
analysed source; the spec describes it as a function mapping a color name to
an escape-sequence string, with a sentinel for "unresolvable" — embedded
here as the empty string, which is exactly what the source's falsiness check
`if not color_code` tests. The color-name argument reaching it through a
complex action is `color[group]`; on a non-string the lookup cannot name a
color, so it yields the sentinel. -/
def getCodePy (getCode : String → String) : PyValue → String
  | .str s => getCode s
  | _ => ""

/-- The `[x for x in color if x <= group_count]` comprehension: keys are
compared to the group count left to right; a key that is not an int (or
bool) raises `TypeError` at the comparison. -/
def filterGroups (groupCount : Nat) :
    List (PyValue × PyValue) → Except PyErr (List (Int × PyValue))
  | [] => .ok []
  | (k, v) :: rest =>
      match pyToInt k with
      | .error e => .error e
      | .ok ki =>
          match filterGroups groupCount rest with
          | .error e => .error e
          | .ok tail =>
              if ki ≤ (groupCount : Int) then .ok ((ki, v) :: tail) else .ok tail

/-- The `for group in ...` loop of the complex branch: resolve each retained
group's color, failing with the `'invalid color code'` error string on the
first unresolvable one. -/
def buildActions (getCode : String → String) :
    List (Int × PyValue) → Sum String (List (Int × String))
  | [] => .inr []
  | (k, v) :: rest =>
      let code := getCodePy getCode v
      if code = "" then .inl "invalid color code"
      else
        match buildActions getCode rest with
        | .inl e => .inl e
        | .inr acts => .inr ((k, code) :: acts)

/-- `get_highlight_repl_func(config, regex, color)`: returns the compiled
rule (`.inr`) or an error string (`.inl`); exceptions escaping it (from
`re.compile`) are the `.error` case.  `color` is a string for a simple
action; anything else takes the complex branch, which iterates `color` —
only a dict is iterable this way in the analysed call sites. -/
def getHighlightReplFunc (getCode : String → String)
    (compileGroups : String → Except String Nat) (config : Config)
    (regex color : PyValue) : Except PyErr (Sum String CompiledRule) :=
  match color with
  | .str c =>
      if getCode c = "" then .ok (.inl "invalid color code")
      else .ok (.inr ⟨regex, .simple (getCode c) config.resetString⟩)
  | .dict entries =>
      match reCompileGroups compileGroups regex with
      | .error e => .error e
      | .ok n =>
          match filterGroups n entries with
          | .error e => .error e
          | .ok filtered =>
              match buildActions getCode filtered with
              | .inl e => .ok (.inl e)
              | .inr acts => .ok (.inr ⟨regex, .complex acts⟩)
  | _ => .error .typeError

/-- The error string `'sub-action {} not integer'.format(k)`. -/
def subActionNotInt (k : PyValue) : String :=
  "sub-action " ++ (pyStr k ++ " not integer")

/-- The error string `'sub-action {} value not string '.format(k)` (the
trailing blank is in the source). -/
def subActionValNotStr (k : PyValue) : String :=
  "sub-action " ++ (pyStr k ++ " value not string ")

/-- The `for sub_action in color` validation loop of `parse_rule`. -/
def checkSubActions : List (PyValue × PyValue) → Option String
  | [] => Option.none
  | (k, v) :: rest =>
      if !isInt k then some (subActionNotInt k)
      else if !isStr v then some (subActionValNotStr k)
      else checkSubActions rest

/-- `parse_rule(rule, config)`. -/
def parseRule (getCode : String → String)
    (compileGroups : String → Except String Nat) (rule : PyValue)
    (config : Config) : Except PyErr (Sum String CompiledRule) :=
  match pyGet rule "regex" with
  | .error e => .error e
  | .ok regex =>
      if !pyTruthy regex then .ok (.inl "regex not found")
      else if !isStr regex && !isInt regex then
        .ok (.inl "regex not string or integer")
      else
        match pyGet rule "color" with
        | .error e => .error e
        | .ok color =>
            if !pyTruthy color then .ok (.inl "color not found")
            else if !isStr color && !isDict color then
              .ok (.inl "color not string or dictionary")
            else
              match color with
              | .dict entries =>
                  (match checkSubActions entries with
                   | some e => .ok (.inl e)
                   | Option.none =>
                       getHighlightReplFunc getCode compileGroups config regex color)
              | _ => getHighlightReplFunc getCode compileGroups config regex color

/-- The rule loop of `parse_config`: returns the compiled rules kept and the
`eprint`ed rule-error messages, in order. -/
def parseRules (getCode : String → String)
    (compileGroups : String → Except String Nat) (config : Config) :
    List PyValue → Except PyErr (List CompiledRule × List String)
  | [] => .ok ([], [])
  | r :: rest =>
      match parseRule getCode compileGroups r config with
      | .error e => .error e
      | .ok (.inr cr) =>
          match parseRules getCode compileGroups config rest with
          | .error e => .error e
          | .ok (crs, errs) => .ok (cr :: crs, errs)
      | .ok (.inl msg) =>
          match parseRules getCode compileGroups config rest with
          | .error e => .error e
          | .ok (crs, errs) =>
              .ok (crs, ("Rule error on " ++ (pyStr r ++ (": " ++ msg))) :: errs)

/-- `parse_config(data)` after the `yaml.safe_load` call, whose outcome is
the `loadResult` argument (the YAML library is external): a `YAMLError` is
reported and the default configuration returned; otherwise the loaded
document is consulted with `load.get('rules', [])`, a non-list `rules`
value is replaced by `[]`, and the rules are parsed one by one.  The second
component collects the `eprint` error messages. -/
def parseConfig (getCode : String → String)
    (compileGroups : String → Except String Nat)
    (loadResult : Except String PyValue) :
    Except PyErr (Config × List String) :=
  match loadResult with
  | .error e => .ok (defaultConfig, ["Parse error: " ++ e])
  | .ok load =>
      match pyGetD load "rules" (.list []) with
      | .error e => .error e
      | .ok rulesV =>
          let rulesL := match rulesV with | .list xs => xs | _ => []
          match parseRules getCode compileGroups defaultConfig rulesL with
          | .error e => .error e
          | .ok (crs, errs) => .ok (⟨crs, defaultConfig.resetString⟩, errs)

/-! ## Stream driver: `process_buffer` -/

/-- The characters Python's `str.splitlines` treats as line boundaries
(besides the combined terminator `'\r\n'`). -/
def isLineBreak (c : Char) : Bool :=
  c == '\n' || c == '\r' || c == '\x0b' || c == '\x0c' ||
  c == '\x1c' || c == '\x1d' || c == '\x1e' || c == '\x85' ||
  c == '\u2028' || c == '\u2029'

/-- `buffer.splitlines(True)` over the character list, with `acc` holding
the (reversed) characters of the current segment: every segment keeps its
terminator, `'\r\n'` counts as a single terminator, and a final segment
without a terminator is kept as well. -/
def splitlinesAux (acc : List Char) : List Char → List (List Char)
  | [] => if acc.isEmpty then [] else [acc.reverse]
  | c :: rest =>
      if c = '\r' then
        match rest with
        | [] => (acc.reverse ++ ['\r']) :: splitlinesAux [] []
        | c2 :: rest2 =>
            if c2 = '\n' then (acc.reverse ++ ['\r', '\n']) :: splitlinesAux [] rest2
            else (acc.reverse ++ ['\r']) :: splitlinesAux [] (c2 :: rest2)
      else if isLineBreak c then (acc.reverse ++ [c]) :: splitlinesAux [] rest
      else splitlinesAux (c :: acc) rest

/-- `buffer.splitlines(True)` on strings. -/
def pySplitlines (s : String) : List String :=
  (splitlinesAux [] s.toList).map String.mk

/-- Concatenation of a list of strings. -/
def strJoin : List String → String
  | [] => ""
  | s :: rest => s ++ strJoin rest

/-- `lines[-1]` with `""` for an empty list (only reached on non-empty
lists in `process_buffer`). -/
def lastD : List String → String
  | [] => ""
  | [s] => s
  | _ :: s :: rest => lastD (s :: rest)

/-- Outcome of one `process_buffer` call: the lines handed (in this order)
to `print(highlight(config['rules'], line), end='')`, whether the final
print forced a flush, and the left-over data returned for the caller's
buffer. -/
structure ProcResult where
  printed : List String
  flushed : Bool
  leftover : String
deriving DecidableEq

/-- `process_buffer(config, buffer, more)` with the outcome of the
`read_ready(WAIT_FOR_NEW_LINE)` probe supplied as `readReady` (the probe
inspects `sys.stdin` and is external to the buffer logic).  All segments
but the last are printed unconditionally; the last segment is returned as
left-over data when `read_ready(...) and more` holds and is otherwise
printed with `flush=True`. -/
def processBuffer (buffer : String) (more readReady : Bool) : ProcResult :=
  let lines := pySplitlines buffer
  if lines.isEmpty then ⟨[], false, ""⟩
  else if readReady && more then ⟨lines.dropLast, false, lastD lines⟩
  else ⟨lines, true, ""⟩

/-! ## Entry point: `main` -/

/-- The namespace returned by `argparse`'s `parse_args`. -/
structure ArgsNamespace where
  attrs : List (String × PyValue)

/-- `args_init()`: the parser defines exactly one argument, `--config`,
with default `'.chromatermrc'`; every accepted command line therefore
yields a namespace whose only attribute is `config`. -/
def argsInit (configArg : Option String) : ArgsNamespace :=
  ⟨[("config", .str (configArg.getD ".chromatermrc"))]⟩

/-- Attribute access on the namespace: a missing attribute raises
`AttributeError`. -/
def nsGetattr (ns : ArgsNamespace) (name : String) : Except PyErr PyValue :=
  match ns.attrs.lookup name with
  | some v => .ok v
  | Option.none => .error .attributeError

/-- Externally visible effects of `main` in the order they would occur. -/
inductive Effect where
  | openFile (path : String)
  | readInput
deriving DecidableEq

/-- The body of `main()` up to its first effect: build the argument
namespace, then evaluate `args.demo`; only if that succeeds (and is falsy)
does `main` open `args.config` and enter the read loop (the loop itself is
I/O and is represented just by its initial effects). -/
def mainModel (configArg : Option String) : List Effect × Except PyErr Unit :=
  let args := argsInit configArg
  match nsGetattr args "demo" with
  | .error e => ([], .error e)
  | .ok demo =>
      if pyTruthy demo then ([], .ok ())
      else
        match nsGetattr args "config" with
        | .error e => ([], .error e)
        | .ok cfgPath => ([.openFile (pyStr cfgPath), .readInput], .ok ())

/-! ## Concrete instances of the external collaborators, used to evaluate
the embedding on concrete inputs. -/

/-- Modelled from the spec: a sample of the external color table
(`chromaterm.colors` is not part of the analysed source); `'red'` resolves
to the red foreground escape sequence, anything else is unresolvable. -/
def getCodeSample : String → String
  | "red" => "\x1b[31m"
  | _ => ""

/-- A sample engine group-counter: every pattern compiles with zero capture
groups. -/
def cgSample : String → Except String Nat := fun _ => .ok 0

/-- A sample engine group-counter under which the pattern `"(a)"` has one
capture group. -/
def cgGroupA : String → Except String Nat :=
  fun p => if p = "(a)" then .ok 1 else .ok 0

/-- A sample engine matcher recording that the pattern `"(a)"` matches the
line `"a"` wholly (as the real engine would); nothing else matches. -/
def engGroupA : String → String → SubDecomp :=
  fun p s => if p = "(a)" && s = "a" then ⟨[("", "a")], ""⟩ else ⟨[], s⟩

/-- Literal-substring matcher: the decomposition of `s` into successive
non-overlapping occurrences of the (non-empty) literal pattern `p`, a valid
engine instance for patterns without metacharacters.  Fuelled structural
recursion; the wrapper supplies enough fuel. -/
def litDecompF (p : List Char) : Nat → List Char → List (List Char × List Char) × List Char
  | 0, l => ([], l)
  | _ + 1, [] => ([], [])
  | fuel + 1, c :: rest =>
      if !p.isEmpty && List.isPrefixOf p (c :: rest) then
        let r := litDecompF p fuel ((c :: rest).drop p.length)
        (([], p) :: r.1, r.2)
      else
        match litDecompF p fuel rest with
        | ([], tail) => ([], c :: tail)
        | ((g, m) :: parts, tail) => ((c :: g, m) :: parts, tail)

/-- Literal-substring engine on strings. -/
def litMatches (p s : String) : SubDecomp :=
  let r := litDecompF p.toList s.toList.length s.toList
  ⟨r.1.map (fun q => (String.mk q.1, String.mk q.2)), String.mk r.2⟩

/-! ## Helper lemmas -/

theorem str_append_assoc (a b c : String) : (a ++ b) ++ c = a ++ (b ++ c) := by
  obtain ⟨x⟩ := a
  obtain ⟨y⟩ := b
  obtain ⟨z⟩ := c
  show String.mk ((x ++ y) ++ z) = String.mk (x ++ (y ++ z))
  rw [List.append_assoc]

theorem str_append_nil (s : String) : s ++ "" = s := by
  obtain ⟨x⟩ := s
  show String.mk (x ++ []) = String.mk x
  rw [List.append_nil]

/-- Concatenation of a list of character lists. -/
def listJoin : List (List Char) → List Char
  | [] => []
  | x :: xs => x ++ listJoin xs

theorem strJoin_map_mk (ls : List (List Char)) :
    strJoin (ls.map String.mk) = String.mk (listJoin ls) := by
  induction ls with
  | nil => rfl
  | cons x xs ih =>
      show String.mk x ++ strJoin (xs.map String.mk) = _
      rw [ih]
      rfl

theorem str_nil_append (s : String) : "" ++ s = s := by
  obtain ⟨x⟩ := s
  rfl

theorem splitlinesAux_cons_not_cr (acc : List Char) (c : Char)
    (rest : List Char) (hc : ¬c = '\r') :
    splitlinesAux acc (c :: rest) =
      if isLineBreak c then (acc.reverse ++ [c]) :: splitlinesAux [] rest
      else splitlinesAux (c :: acc) rest := by
  cases rest <;> simp [splitlinesAux, hc]

theorem splitlinesAux_join (acc l : List Char) :
    listJoin (splitlinesAux acc l) = acc.reverse ++ l := by
  induction acc, l using splitlinesAux.induct with
  | case1 acc h =>
      have hacc : acc = [] := by
        cases acc with
        | nil => rfl
        | cons a as => simp at h
      subst hacc
      rfl
  | case2 acc h => simp [splitlinesAux, h, listJoin]
  | case3 acc ih => simp [splitlinesAux, listJoin]
  | case4 acc rest2 ih => simp_all [splitlinesAux, listJoin]
  | case5 acc c2 rest2 hc2 ih => simp_all [splitlinesAux, hc2, listJoin]
  | case6 acc c2 rest2 hc hbrk ih =>
      rw [splitlinesAux_cons_not_cr acc c2 rest2 hc, if_pos hbrk]
      simp_all [listJoin]
  | case7 acc c2 rest2 hc hbrk ih =>
      rw [splitlinesAux_cons_not_cr acc c2 rest2 hc, if_neg hbrk]
      simp_all

theorem pySplitlines_join (s : String) : strJoin (pySplitlines s) = s := by
  rw [pySplitlines, strJoin_map_mk, splitlinesAux_join]
  rfl

theorem pySplitlines_eq_nil {s : String} (h : pySplitlines s = []) : s = "" := by
  have := pySplitlines_join s
  rw [h] at this
  exact this.symm

theorem strJoin_dropLast (ls : List String) :
    strJoin ls.dropLast ++ lastD ls = strJoin ls := by
  induction ls with
  | nil => rfl
  | cons x xs ih =>
      cases xs with
      | nil =>
          show "" ++ x = x ++ ""
          rw [str_append_nil, str_nil_append]
      | cons y ys =>
          show (x ++ strJoin ((y :: ys).dropLast)) ++ lastD (y :: ys) =
            x ++ strJoin (y :: ys)
          rw [str_append_assoc, ih]

/-- The spec's notion of the trailing fragment: the text after the last
`'\n'` of the buffer (the whole buffer if it has none). -/
def textAfterLastNewline (s : String) : String :=
  String.mk ((s.toList.reverse.takeWhile (fun c => c != '\n')).reverse)

/-! ## Claim theorems -/

/-- C2: `main` evaluates `args.demo` on the namespace returned by
`args_init`, which defines only `config`; so for every accepted command
line `main` raises `AttributeError` before opening the configuration file
or reading any input (no effect is performed). -/
theorem mainDemoAttributeError (configArg : Option String) :
    mainModel configArg = ([], .error .attributeError) := by
  rfl

/-- C1 (code bug): the compiled complex-action rule
`{'regex': '(a)', 'color': {1: 'red'}}` carries the resolved action for
group 1, yet its substitution function returns the bare matched text:
highlighting the line `"a"` (matched wholly by the pattern, as recorded by
the `engGroupA` engine instance) leaves it unchanged instead of wrapping
the group's span in the color code and reset string. -/
theorem complexActionIdentity :
    parseRule getCodeSample cgGroupA
        (.dict [(.str "regex", .str "(a)"),
                (.str "color", .dict [(.int 1, .str "red")])])
        defaultConfig =
      .ok (.inr ⟨.str "(a)", .complex [(1, "\x1b[31m")]⟩) ∧
    highlight engGroupA [⟨.str "(a)", .complex [(1, "\x1b[31m")]⟩] "a" =
      .ok "a" ∧
    applyReplFunc (.complex [(1, "\x1b[31m")]) "a" ≠
      "\x1b[31m" ++ ("a" ++ defaultConfig.resetString) := by
  exact ⟨rfl, rfl, by decide⟩

/-- C3 (code bug): the rule `{'regex': 5, 'color': 'red'}` passes
`parse_rule`'s validation (an integer regex is accepted) and compiles to a
rule dict, but applying the compiled rule list to a line makes `re.sub`
raise `TypeError` — the exception propagates out of `highlight` instead of
a string being returned. -/
theorem intRegexRuleRaises :
    parseRule getCodeSample cgSample
        (.dict [(.str "regex", .int 5), (.str "color", .str "red")])
        defaultConfig =
      .ok (.inr ⟨.int 5, .simple "\x1b[31m" "\x1b[0m"⟩) ∧
    highlight litMatches [⟨.int 5, .simple "\x1b[31m" "\x1b[0m"⟩] "5" =
      .error .typeError := by
  exact ⟨rfl, rfl⟩

/-- C4 (code bug): when the YAML document parses to a non-mapping value —
e.g. the empty document, which loads as `None` — `parse_config` evaluates
`load.get('rules', [])` on it and raises `AttributeError` instead of
returning the default configuration; only a document-level `YAMLError` is
degraded gracefully. -/
theorem parseConfigNonMappingRaises :
    parseConfig getCodeSample cgSample (.ok .none) = .error .attributeError ∧
    parseConfig getCodeSample cgSample (.ok (.list [.int 1])) =
      .error .attributeError ∧
    parseConfig getCodeSample cgSample (.error "bad") =
      .ok (defaultConfig, ["Parse error: bad"]) := by
  exact ⟨rfl, rfl, rfl⟩

/-- C9 (code bug): in a configuration whose rules list holds a well-formed
simple rule followed by `{'regex': 5, 'color': {0: 'red'}}`, parsing the
second rule calls `re.compile(5)`, whose `TypeError` propagates out of
`parse_config`: no rule error is reported and even the well-formed first
rule does not survive. -/
theorem parseConfigRuleCrash :
    parseConfig getCodeSample cgSample
        (.ok (.dict [(.str "rules", .list
          [.dict [(.str "regex", .str "a"), (.str "color", .str "red")],
           .dict [(.str "regex", .int 5),
                  (.str "color", .dict [(.int 0, .str "red")])]])])) =
      .error .typeError := by
  exact rfl

/-- C5 (counterexample): for the buffer `"a\n"` — a single complete line —
with more data expected and the readiness probe positive, `process_buffer`
prints nothing and retains the entire `"a\n"` as left-over, although the
text after the last newline is empty; so a complete line is neither emitted
immediately nor is the retained text the trailing fragment. -/
theorem processBufferHoldsCompleteLine :
    processBuffer "a\n" true true = ⟨[], false, "a\n"⟩ ∧
    textAfterLastNewline "a\n" = "" ∧ ("a\n" : String) ≠ "" := by
  exact ⟨by decide, by decide, by decide⟩

theorem processBuffer_spec (buffer : String) (more ready : Bool) :
    processBuffer buffer more ready =
      if pySplitlines buffer = [] then ⟨[], false, ""⟩
      else if ready && more then
        ⟨(pySplitlines buffer).dropLast, false, lastD (pySplitlines buffer)⟩
      else ⟨pySplitlines buffer, true, ""⟩ := by
  unfold processBuffer
  by_cases h : pySplitlines buffer = [] <;> simp [h]

/-- C5 (amended): in every processing pass, `process_buffer` hands every
segment of the keepends line-split except the last to the highlighter in
order, and retains exactly the last segment (which ends in a line
terminator whenever the buffer does) when the probe and `more` both hold —
otherwise it emits all segments and retains nothing; in either case the
emitted lines followed by the retained text reassemble the buffer exactly,
so nothing is dropped or duplicated. -/
theorem processBufferSegments (buffer : String) (more ready : Bool) :
    strJoin (processBuffer buffer more ready).printed ++
        (processBuffer buffer more ready).leftover = buffer ∧
    ((processBuffer buffer more ready).printed =
          (pySplitlines buffer).dropLast ∧
        (processBuffer buffer more ready).leftover =
          lastD (pySplitlines buffer) ∨
      (processBuffer buffer more ready).printed = pySplitlines buffer ∧
        (processBuffer buffer more ready).leftover = "") := by
  rcases hl : pySplitlines buffer with _ | ⟨x, xs⟩
  · have hbuf : buffer = "" := pySplitlines_eq_nil hl
    subst hbuf
    rw [processBuffer_spec, hl, if_pos rfl]
    exact ⟨by decide, Or.inr ⟨by decide, by decide⟩⟩
  · rw [processBuffer_spec, hl]
    by_cases h1 : ready && more
    · rw [if_neg (by simp), if_pos h1]
      refine ⟨?_, Or.inl ⟨rfl, rfl⟩⟩
      rw [strJoin_dropLast, ← hl, pySplitlines_join]
    · rw [if_neg (by simp), if_neg h1]
      refine ⟨?_, Or.inr ⟨rfl, rfl⟩⟩
      have := pySplitlines_join buffer
      rw [hl] at this
      exact (str_append_nil _).trans this

/-- C6: once the source has closed (`more = false`), a call on any
non-empty buffer emits the whole buffer — the complete lines followed by
any trailing newline-less fragment — through the highlighter, forcing a
flush, and returns an empty left-over; a call on the empty buffer emits
nothing and returns an empty left-over. -/
theorem processBufferEofFlush (buffer : String) (ready : Bool)
    (h : buffer ≠ "") :
    strJoin (processBuffer buffer false ready).printed = buffer ∧
    (processBuffer buffer false ready).printed = pySplitlines buffer ∧
    (processBuffer buffer false ready).flushed = true ∧
    (processBuffer buffer false ready).leftover = "" ∧
    processBuffer "" false ready = ⟨[], false, ""⟩ := by
  have hlast : processBuffer "" false ready = ⟨[], false, ""⟩ := by
    rw [processBuffer_spec]
    rfl
  rcases hl : pySplitlines buffer with _ | ⟨x, xs⟩
  · exact absurd (pySplitlines_eq_nil hl) h
  · rw [processBuffer_spec, hl, if_neg (by simp), if_neg (by simp)]
    have := pySplitlines_join buffer
    rw [hl] at this
    exact ⟨this, rfl, rfl, rfl, hlast⟩

/-- Witness for C6 at the buffer `"ab\ncd"`. -/
theorem processBufferEofFlushWitness :
    ("ab\ncd" : String) ≠ "" ∧
    (strJoin (processBuffer "ab\ncd" false true).printed = "ab\ncd" ∧
      (processBuffer "ab\ncd" false true).printed = pySplitlines "ab\ncd" ∧
      (processBuffer "ab\ncd" false true).flushed = true ∧
      (processBuffer "ab\ncd" false true).leftover = "" ∧
      processBuffer "" false true = ⟨[], false, ""⟩) := by
  exact ⟨by decide, processBufferEofFlush "ab\ncd" true (by decide)⟩

/-! ## Sub-action error characterisation (towards C7) -/

/-- The error strings produced by the sub-action validation loop. -/
def isSubActionMsg (e : String) : Prop :=
  ∃ k, e = subActionNotInt k ∨ e = subActionValNotStr k

/-- Whether a `parse_rule` outcome is a returned error string. -/
def isRuleError : Except PyErr (Sum String CompiledRule) → Bool
  | .ok (.inl _) => true
  | _ => false

theorem head_append_subaction (s : String) :
    ("sub-action " ++ s).toList.head? = some 's' := by
  obtain ⟨l⟩ := s
  rfl

theorem subActionNotInt_head (k : PyValue) :
    (subActionNotInt k).toList.head? = some 's' :=
  head_append_subaction _

theorem subActionValNotStr_head (k : PyValue) :
    (subActionValNotStr k).toList.head? = some 's' :=
  head_append_subaction _

theorem invalid_not_subActionMsg : ¬isSubActionMsg "invalid color code" := by
  rintro ⟨k, h | h⟩
  · have h2 : (some 'i' : Option Char) = some 's' := by
      calc (some 'i' : Option Char)
          = ("invalid color code" : String).toList.head? := rfl
        _ = (subActionNotInt k).toList.head? := by rw [h]
        _ = some 's' := subActionNotInt_head k
    exact absurd (Option.some.inj h2) (by decide)
  · have h2 : (some 'i' : Option Char) = some 's' := by
      calc (some 'i' : Option Char)
          = ("invalid color code" : String).toList.head? := rfl
        _ = (subActionValNotStr k).toList.head? := by rw [h]
        _ = some 's' := subActionValNotStr_head k
    exact absurd (Option.some.inj h2) (by decide)

theorem checkSubActions_none {entries : List (PyValue × PyValue)}
    (h : checkSubActions entries = Option.none) :
    ∀ kv ∈ entries, isInt kv.1 = true ∧ isStr kv.2 = true := by
  induction entries with
  | nil => intro kv hkv; simp at hkv
  | cons p rest ih =>
      obtain ⟨k, v⟩ := p
      intro kv hkv
      by_cases hk : isInt k = true
      · by_cases hv : isStr v = true
        · unfold checkSubActions at h
          rw [if_neg (by simp [hk]), if_neg (by simp [hv])] at h
          rcases List.mem_cons.mp hkv with hkv | hkv
          · subst hkv; exact ⟨hk, hv⟩
          · exact ih h kv hkv
        · unfold checkSubActions at h
          rw [if_neg (by simp [hk]), if_pos (by simp [hv])] at h
          exact absurd h (by simp)
      · unfold checkSubActions at h
        rw [if_pos (by simp [hk])] at h
        exact absurd h (by simp)

theorem checkSubActions_some_msg {entries : List (PyValue × PyValue)}
    {e : String} (h : checkSubActions entries = some e) : isSubActionMsg e := by
  induction entries with
  | nil => simp [checkSubActions] at h
  | cons p rest ih =>
      obtain ⟨k, v⟩ := p
      by_cases hk : isInt k = true
      · by_cases hv : isStr v = true
        · unfold checkSubActions at h
          rw [if_neg (by simp [hk]), if_neg (by simp [hv])] at h
          exact ih h
        · unfold checkSubActions at h
          rw [if_neg (by simp [hk]), if_pos (by simp [hv])] at h
          exact ⟨k, Or.inr (Option.some.inj h).symm⟩
      · unfold checkSubActions at h
        rw [if_pos (by simp [hk])] at h
        exact ⟨k, Or.inl (Option.some.inj h).symm⟩

theorem checkSubActions_some_offender {entries : List (PyValue × PyValue)}
    {e : String} (h : checkSubActions entries = some e) :
    ∃ kv ∈ entries, isInt kv.1 = false ∨ isStr kv.2 = false := by
  induction entries with
  | nil => simp [checkSubActions] at h
  | cons p rest ih =>
      obtain ⟨k, v⟩ := p
      by_cases hk : isInt k = true
      · by_cases hv : isStr v = true
        · unfold checkSubActions at h
          rw [if_neg (by simp [hk]), if_neg (by simp [hv])] at h
          obtain ⟨kv, hm, hb⟩ := ih h
          exact ⟨kv, List.mem_cons_of_mem _ hm, hb⟩
        · exact ⟨(k, v), List.mem_cons_self _ _,
            Or.inr (by simpa using hv)⟩
      · exact ⟨(k, v), List.mem_cons_self _ _, Or.inl (by simpa using hk)⟩

theorem buildActions_inl {getCode : String → String}
    {l : List (Int × PyValue)} {e : String}
    (h : buildActions getCode l = .inl e) : e = "invalid color code" := by
  induction l generalizing e with
  | nil => simp [buildActions] at h
  | cons p rest ih =>
      obtain ⟨k, v⟩ := p
      unfold buildActions at h
      by_cases hc : getCodePy getCode v = ""
      · rw [if_pos hc] at h
        exact (Sum.inl.inj h).symm
      · rw [if_neg hc] at h
        cases hb : buildActions getCode rest with
        | inl e2 =>
            rw [hb] at h
            simp at h
            subst h
            exact ih hb
        | inr acts => rw [hb] at h; simp at h

theorem getHighlightReplFunc_dict (getCode : String → String)
    (compileGroups : String → Except String Nat) (cfg : Config)
    (regex : PyValue) (entries : List (PyValue × PyValue)) :
    getHighlightReplFunc getCode compileGroups cfg regex (.dict entries) =
      match reCompileGroups compileGroups regex with
      | .error e => .error e
      | .ok n =>
          match filterGroups n entries with
          | .error e => .error e
          | .ok filtered =>
              match buildActions getCode filtered with
              | .inl e => .ok (.inl e)
              | .inr acts => .ok (.inr ⟨regex, .complex acts⟩) := rfl

theorem getHighlightReplFunc_inl {getCode : String → String}
    {compileGroups : String → Except String Nat} {cfg : Config}
    {regex : PyValue} {entries : List (PyValue × PyValue)} {e : String}
    (h : getHighlightReplFunc getCode compileGroups cfg regex
        (.dict entries) = .ok (.inl e)) :
    e = "invalid color code" := by
  rw [getHighlightReplFunc_dict] at h
  split at h
  · simp at h
  · split at h
    · simp at h
    · split at h
      · rename_i e2 hb
        simp at h
        subst h
        exact buildActions_inl hb
      · simp at h

theorem parseRule_strdict (getCode : String → String)
    (compileGroups : String → Except String Nat) (cfg : Config) (P : String)
    (entries : List (PyValue × PyValue)) (hP : P ≠ "") (hne : entries ≠ []) :
    parseRule getCode compileGroups
        (.dict [(.str "regex", .str P), (.str "color", .dict entries)]) cfg =
      match checkSubActions entries with
      | some e => .ok (.inl e)
      | Option.none =>
          getHighlightReplFunc getCode compileGroups cfg (.str P)
            (.dict entries) := by
  have h1 : pyTruthy (PyValue.str P) = true := by
    simp [pyTruthy]
    exact hP
  have h2 : pyTruthy (PyValue.dict entries) = true := by
    simp [pyTruthy]
    exact hne
  show (if !pyTruthy (PyValue.str P) then
        (.ok (.inl "regex not found") : Except PyErr (Sum String CompiledRule))
      else if !isStr (PyValue.str P) && !isInt (PyValue.str P) then
        .ok (.inl "regex not string or integer")
      else if !pyTruthy (PyValue.dict entries) then .ok (.inl "color not found")
      else if !isStr (PyValue.dict entries) && !isDict (PyValue.dict entries) then
        .ok (.inl "color not string or dictionary")
      else
        match checkSubActions entries with
        | some e => .ok (.inl e)
        | Option.none =>
            getHighlightReplFunc getCode compileGroups cfg (.str P)
              (.dict entries)) = _
  rw [h1, h2]
  rfl

/-- C7 (counterexample): the mapping color specification `{-1: 'red'}` has a
negative integer key, yet `parse_rule` does not fail with the sub-action
error (nor any error string): the rule compiles, with the negative index
retained as an action. -/
theorem negativeKeyAccepted :
    parseRule getCodeSample cgSample
        (.dict [(.str "regex", .str "a"),
                (.str "color", .dict [(.int (-1), .str "red")])])
        defaultConfig =
      .ok (.inr ⟨.str "a", .complex [(-1, "\x1b[31m")]⟩) ∧
    isRuleError (parseRule getCodeSample cgSample
        (.dict [(.str "regex", .str "a"),
                (.str "color", .dict [(.int (-1), .str "red")])])
        defaultConfig) = false := by
  exact ⟨rfl, rfl⟩

/-- C7 (amended): for a rule `{'regex': P, 'color': mapping}` with a truthy
string pattern and a non-empty mapping, `parse_rule` returns a sub-action
error string (identifying the offending key) exactly when some key of the
mapping is not an integer or some value is not a string.  Keys are not
required to be non-negative: any integer key passes the check. -/
theorem subActionErrorIff (getCode : String → String)
    (compileGroups : String → Except String Nat) (cfg : Config) (P : String)
    (entries : List (PyValue × PyValue)) (hP : P ≠ "") (hne : entries ≠ []) :
    (∃ e, parseRule getCode compileGroups
        (.dict [(.str "regex", .str P), (.str "color", .dict entries)]) cfg =
          .ok (.inl e) ∧ isSubActionMsg e) ↔
      ∃ kv ∈ entries, isInt kv.1 = false ∨ isStr kv.2 = false := by
  rw [parseRule_strdict getCode compileGroups cfg P entries hP hne]
  cases hcs : checkSubActions entries with
  | none =>
      apply iff_of_false
      · rintro ⟨e, he, hmsg⟩
        have he2 : getHighlightReplFunc getCode compileGroups cfg (.str P)
            (.dict entries) = .ok (.inl e) := he
        rw [getHighlightReplFunc_inl he2] at hmsg
        exact invalid_not_subActionMsg hmsg
      · rintro ⟨kv, hmem, hbad⟩
        have hok := checkSubActions_none hcs kv hmem
        rcases hbad with hb | hb
        · rw [hok.1] at hb; exact Bool.noConfusion hb
        · rw [hok.2] at hb; exact Bool.noConfusion hb
  | some e0 =>
      apply iff_of_true
      · exact ⟨e0, rfl, checkSubActions_some_msg hcs⟩
      · exact checkSubActions_some_offender hcs

/-- Witness for C7 (amended) at the mapping `{'k': 'red'}`, whose key is a
string rather than an integer. -/
theorem subActionErrorIffWitness :
    ("a" : String) ≠ "" ∧
    ([((PyValue.str "k" : PyValue), (PyValue.str "red" : PyValue))] :
        List (PyValue × PyValue)) ≠ [] ∧
    ((∃ e, parseRule getCodeSample cgSample
        (.dict [(.str "regex", .str "a"),
                (.str "color", .dict [(.str "k", .str "red")])])
        defaultConfig = .ok (.inl e) ∧ isSubActionMsg e) ↔
      ∃ kv ∈ ([((PyValue.str "k" : PyValue), (PyValue.str "red" : PyValue))] :
          List (PyValue × PyValue)),
        isInt kv.1 = false ∨ isStr kv.2 = false) := by
  exact ⟨by decide, List.cons_ne_nil _ _,
    subActionErrorIff getCodeSample cgSample defaultConfig "a"
      [(.str "k", .str "red")] (by decide) (List.cons_ne_nil _ _)⟩

/-- C8: compiling the simple-action rule with pattern `P` and color `C`
resolving to the non-empty code `X` yields the simple substitution closure,
and for a line `pre ++ m ++ suf` on which the engine reports exactly the
single match `m`, highlighting with that one rule returns the line with `m`
replaced by `X ++ m ++ reset` and the rest unchanged. -/
theorem simpleActionWrap (getCode : String → String)
    (compileGroups : String → Except String Nat)
    (matchesOf : String → String → SubDecomp) (cfg : Config)
    (P C X pre m suf : String) (hC : getCode C = X) (hX : X ≠ "")
    (hm : matchesOf P (pre ++ (m ++ suf)) = ⟨[(pre, m)], suf⟩) :
    getHighlightReplFunc getCode compileGroups cfg (.str P) (.str C) =
      .ok (.inr ⟨.str P, .simple X cfg.resetString⟩) ∧
    highlight matchesOf [⟨.str P, .simple X cfg.resetString⟩]
        (pre ++ (m ++ suf)) =
      .ok (pre ++ ((X ++ (m ++ cfg.resetString)) ++ suf)) := by
  constructor
  · show (if getCode C = "" then
          (.ok (.inl "invalid color code") :
            Except PyErr (Sum String CompiledRule))
        else .ok (.inr ⟨.str P, .simple (getCode C) cfg.resetString⟩)) = _
    rw [hC, if_neg hX]
  · have hsub : reSub matchesOf (.str P) (.simple X cfg.resetString)
        (pre ++ (m ++ suf)) =
          .ok (pre ++ ((X ++ (m ++ cfg.resetString)) ++ suf)) := by
      show Except.ok ((matchesOf P (pre ++ (m ++ suf))).apply
          (applyReplFunc (.simple X cfg.resetString))) = _
      rw [hm]
      rfl
    show (match reSub matchesOf (.str P) (.simple X cfg.resetString)
            (pre ++ (m ++ suf)) with
          | .error e => (.error e : Except PyErr String)
          | .ok line2 => highlight matchesOf [] line2) = _
    rw [hsub]
    rfl

/-- Witness for C8: the literal engine, the sample color table, pattern
`"b"`, color `"red"`, line `"abc"`. -/
theorem simpleActionWrapWitness :
    getCodeSample "red" = "\x1b[31m" ∧ ("\x1b[31m" : String) ≠ "" ∧
    litMatches "b" ("a" ++ ("b" ++ "c")) = ⟨[("a", "b")], "c"⟩ ∧
    (getHighlightReplFunc getCodeSample cgSample defaultConfig
        (.str "b") (.str "red") =
      .ok (.inr ⟨.str "b", .simple "\x1b[31m" defaultConfig.resetString⟩) ∧
    highlight litMatches
        [⟨.str "b", .simple "\x1b[31m" defaultConfig.resetString⟩]
        ("a" ++ ("b" ++ "c")) =
      .ok ("a" ++ (("\x1b[31m" ++ ("b" ++ defaultConfig.resetString)) ++ "c"))) := by
  exact ⟨rfl, by decide, by decide,
    simpleActionWrap getCodeSample cgSample litMatches defaultConfig
      "b" "red" "\x1b[31m" "a" "b" "c" rfl (by decide) (by decide)⟩

/-- C10: if every rule in the compiled list has a string pattern that does
not match the line (the engine decomposes the line into no matches and the
line itself as tail), then `highlight` returns the line unchanged. -/
theorem highlightNoMatchId (matchesOf : String → String → SubDecomp)
    (rules : List CompiledRule) (line : String)
    (h : ∀ r ∈ rules, ∃ p, r.regex = PyValue.str p ∧
        matchesOf p line = ⟨[], line⟩) :
    highlight matchesOf rules line = .ok line := by
  induction rules with
  | nil => rfl
  | cons r rest ih =>
      obtain ⟨p, hp, hm⟩ := h r (List.mem_cons_self r rest)
      have hsub : reSub matchesOf r.regex r.replFunc line = .ok line := by
        rw [hp]
        show Except.ok ((matchesOf p line).apply (applyReplFunc r.replFunc)) = _
        rw [hm]
        rfl
      show (match reSub matchesOf r.regex r.replFunc line with
            | .error e => (.error e : Except PyErr String)
            | .ok line2 => highlight matchesOf rest line2) = _
      rw [hsub]
      exact ih (fun q hq => h q (List.mem_cons_of_mem r hq))

/-- The single-rule list used as the C10 witness. -/
def rulesNoMatch : List CompiledRule := [⟨.str "x", .simple "A" "R"⟩]

/-- Witness for C10: the literal pattern `"x"` does not occur in `"ab"`,
and the line passes through unchanged. -/
theorem highlightNoMatchIdWitness :
    (∀ r ∈ rulesNoMatch, ∃ p, r.regex = PyValue.str p ∧
        litMatches p "ab" = ⟨[], "ab"⟩) ∧
    highlight litMatches rulesNoMatch "ab" = .ok "ab" := by
  have h : ∀ r ∈ rulesNoMatch, ∃ p, r.regex = PyValue.str p ∧
      litMatches p "ab" = ⟨[], "ab"⟩ := by
    intro r hr
    rcases List.mem_singleton.mp hr with hr2
    subst hr2
    exact ⟨"x", rfl, by decide⟩
  exact ⟨h, highlightNoMatchId litMatches rulesNoMatch "ab" h⟩

end ChromaTerm

